import Mathlib

/-!
# Verification of the hand-written S3 SigV4 client (`storage/s3client.go`)

A shallow embedding of the request-canonicalization, signing-key derivation
and response classification of the S3-compatible client, together with
theorems checking the design document's claims about it.

Go strings are byte strings; they are modelled as `List Nat` with every
element a byte value.  String literals from the source are written via `gs`,
which is exact for the ASCII literals the client uses.
-/

/-- Go string, as its sequence of bytes. -/
abbrev GoStr := List Nat

/-- Byte sequence of an ASCII string literal (code points = bytes). -/
def gs (s : String) : GoStr := s.data.map Char.toNat

/-! ## SHA-256 (`crypto/sha256`), executable over byte lists -/

/-- 2^32, the word modulus of SHA-256 arithmetic. -/
def w32 : Nat := 4294967296

/-- Right-rotation of a 32-bit word. -/
def rotr32 (n w : Nat) : Nat := ((w >>> n) ||| (w <<< (32 - n))) % w32

/-- SHA-256 `Ch(x,y,z) = (x ∧ y) ⊕ (¬x ∧ z)` on 32-bit words. -/
def shaCh (x y z : Nat) : Nat := (x &&& y) ^^^ ((x ^^^ 4294967295) &&& z)

/-- SHA-256 `Maj(x,y,z) = (x ∧ y) ⊕ (x ∧ z) ⊕ (y ∧ z)`. -/
def shaMaj (x y z : Nat) : Nat := (x &&& y) ^^^ (x &&& z) ^^^ (y &&& z)

/-- SHA-256 `Σ₀`. -/
def bigSigma0 (x : Nat) : Nat := rotr32 2 x ^^^ rotr32 13 x ^^^ rotr32 22 x

/-- SHA-256 `Σ₁`. -/
def bigSigma1 (x : Nat) : Nat := rotr32 6 x ^^^ rotr32 11 x ^^^ rotr32 25 x

/-- SHA-256 `σ₀`. -/
def smallSigma0 (x : Nat) : Nat := rotr32 7 x ^^^ rotr32 18 x ^^^ (x >>> 3)

/-- SHA-256 `σ₁`. -/
def smallSigma1 (x : Nat) : Nat := rotr32 17 x ^^^ rotr32 19 x ^^^ (x >>> 10)

/-- The 64 SHA-256 round constants. -/
def sha256K : List Nat :=
  [1116352408, 1899447441, 3049323471, 3921009573,
   961987163, 1508970993, 2453635748, 2870763221,
   3624381080, 310598401, 607225278, 1426881987,
   1925078388, 2162078206, 2614888103, 3248222580,
   3835390401, 4022224774, 264347078, 604807628,
   770255983, 1249150122, 1555081692, 1996064986,
   2554220882, 2821834349, 2952996808, 3210313671,
   3336571891, 3584528711, 113926993, 338241895,
   666307205, 773529912, 1294757372, 1396182291,
   1695183700, 1986661051, 2177026350, 2456956037,
   2730485921, 2820302411, 3259730800, 3345764771,
   3516065817, 3600352804, 4094571909, 275423344,
   430227734, 506948616, 659060556, 883997877,
   958139571, 1322822218, 1537002063, 1747873779,
   1955562222, 2024104815, 2227730452, 2361852424,
   2428436474, 2756734187, 3204031479, 3329325298]

/-- Big-endian packing of bytes into 32-bit words. -/
def toWords32 : List Nat → List Nat
  | b0 :: b1 :: b2 :: b3 :: rest =>
      ((((((b0 <<< 8) ||| b1) <<< 8) ||| b2) <<< 8) ||| b3) :: toWords32 rest
  | _ => []

/-- One extension step of the message schedule: append word `w[t]` computed
from `w[t-2]`, `w[t-7]`, `w[t-15]`, `w[t-16]`. -/
def schedStep (w : List Nat) : List Nat :=
  let n := w.length
  w ++ [(smallSigma1 (w.getD (n - 2) 0) + w.getD (n - 7) 0 +
         smallSigma0 (w.getD (n - 15) 0) + w.getD (n - 16) 0) % w32]

/-- The 64-word message schedule of one 64-byte block. -/
def schedule (block : List Nat) : List Nat :=
  (List.range 48).foldl (fun w _ => schedStep w) (toWords32 block)

/-- Working state of the compression function. -/
structure Hash8 where
  a : Nat
  b : Nat
  c : Nat
  d : Nat
  e : Nat
  f : Nat
  g : Nat
  h : Nat

/-- One SHA-256 round, consuming a (round constant, schedule word) pair. -/
def shaRound (st : Hash8) (kw : Nat × Nat) : Hash8 :=
  let t1 := (st.h + bigSigma1 st.e + shaCh st.e st.f st.g + kw.1 + kw.2) % w32
  let t2 := (bigSigma0 st.a + shaMaj st.a st.b st.c) % w32
  ⟨(t1 + t2) % w32, st.a, st.b, st.c, (st.d + t1) % w32, st.e, st.f, st.g⟩

/-- Compression of one 64-byte block into the running hash. -/
def compressBlock (hh : Hash8) (block : List Nat) : Hash8 :=
  let st := (sha256K.zip (schedule block)).foldl shaRound hh
  ⟨(hh.a + st.a) % w32, (hh.b + st.b) % w32, (hh.c + st.c) % w32, (hh.d + st.d) % w32,
   (hh.e + st.e) % w32, (hh.f + st.f) % w32, (hh.g + st.g) % w32, (hh.h + st.h) % w32⟩

/-- SHA-256 padding: `0x80`, zeros to 56 mod 64, then the 64-bit big-endian
bit length. -/
def padMessage (m : List Nat) : List Nat :=
  let L := m.length
  let bl := 8 * L
  m ++ 128 :: List.replicate ((119 - L % 64) % 64) 0 ++
    [(bl >>> 56) % 256, (bl >>> 48) % 256, (bl >>> 40) % 256, (bl >>> 32) % 256,
     (bl >>> 24) % 256, (bl >>> 16) % 256, (bl >>> 8) % 256, bl % 256]

/-- Split into 64-byte blocks (fuelled by the list length, which bounds the
number of blocks). -/
def chunks64Aux : Nat → List Nat → List (List Nat)
  | 0, _ => []
  | _, [] => []
  | fuel + 1, l => l.take 64 :: chunks64Aux fuel (l.drop 64)

/-- Split a padded message into its 64-byte blocks. -/
def chunks64 (l : List Nat) : List (List Nat) := chunks64Aux l.length l

/-- The SHA-256 initial hash value. -/
def sha256Init : Hash8 :=
  ⟨1779033703, 3144134277, 1013904242, 2773480762,
   1359893119, 2600822924, 528734635, 1541459225⟩

/-- Big-endian bytes of a 32-bit word. -/
def word32Bytes (w : Nat) : List Nat :=
  [(w >>> 24) % 256, (w >>> 16) % 256, (w >>> 8) % 256, w % 256]

/-- Digest bytes of a final hash state. -/
def hash8Bytes (hh : Hash8) : List Nat :=
  word32Bytes hh.a ++ word32Bytes hh.b ++ word32Bytes hh.c ++ word32Bytes hh.d ++
  word32Bytes hh.e ++ word32Bytes hh.f ++ word32Bytes hh.g ++ word32Bytes hh.h

/-- SHA-256 of a byte sequence (`sha256.Sum256`). -/
def sha256Sum (m : List Nat) : List Nat :=
  hash8Bytes ((chunks64 (padMessage m)).foldl compressBlock sha256Init)

/-- Lowercase hex digit byte of a value below 16 (`encoding/hex` alphabet). -/
def hexDigitL (n : Nat) : Nat := if n < 10 then 48 + n else 87 + n

/-- Lowercase hex encoding of a byte sequence (`hex.EncodeToString`). -/
def toHexStr : List Nat → List Nat
  | [] => []
  | b :: rest => hexDigitL ((b / 16) % 16) :: hexDigitL (b % 16) :: toHexStr rest

/-! ## HMAC-SHA256 (`hmacSHA256` at s3client.go:216-220, over `crypto/hmac`) -/

/-- HMAC-SHA256: hash over-long keys, zero-pad to the 64-byte block size,
then the nested inner/outer hashes of the `0x36`/`0x5c`-masked key. -/
def hmacSHA256 (key data : List Nat) : List Nat :=
  let k0 := if 64 < key.length then sha256Sum key else key
  let kp := k0 ++ List.replicate (64 - k0.length) 0
  sha256Sum ((kp.map (fun b => b ^^^ 92)) ++ sha256Sum ((kp.map (fun b => b ^^^ 54)) ++ data))

/-- The client's immutable configuration (`S3Client`, s3client.go:17-23); the
`http.Client` field carries no signing state and is omitted. -/
structure S3Client where
  AccessKeyID : GoStr
  SecretAccessKey : GoStr
  Region : GoStr
  EndpointURL : GoStr

/-- `calculateSignature` (s3client.go:206-213): the four-stage key chain and
the hex-encoded final HMAC of the string to sign. -/
def calculateSignature (c : S3Client) (dateStamp stringToSign : GoStr) : GoStr :=
  let kDate := hmacSHA256 (gs "AWS4" ++ c.SecretAccessKey) dateStamp
  let kRegion := hmacSHA256 kDate c.Region
  let kService := hmacSHA256 kRegion (gs "s3")
  let kSigning := hmacSHA256 kService (gs "aws4_request")
  toHexStr (hmacSHA256 kSigning stringToSign)

/-! ## Byte-string utilities (`strings` package operations the client uses) -/

/-- ASCII lower-casing of one byte (`strings.ToLower` on the ASCII header
names the client handles). -/
def lowerByte (c : Nat) : Nat := if 65 ≤ c ∧ c ≤ 90 then c + 32 else c

/-- ASCII lower-casing of a byte string. -/
def lowerStr (s : GoStr) : GoStr := s.map lowerByte

/-- ASCII whitespace, as trimmed by `strings.TrimSpace`. -/
def isSpaceByte (c : Nat) : Bool :=
  c == 32 || c == 9 || c == 10 || c == 11 || c == 12 || c == 13

/-- `strings.TrimSpace` (ASCII): drop whitespace from both ends. -/
def trimSpace (s : GoStr) : GoStr :=
  ((s.dropWhile isSpaceByte).reverse.dropWhile isSpaceByte).reverse

/-- `strings.Split` on a one-byte separator: the (possibly empty) chunks
between separators; the empty string yields `[[]]`. -/
def splitSep (sep : Nat) : GoStr → List GoStr
  | [] => [[]]
  | c :: rest =>
    if c = sep then [] :: splitSep sep rest
    else
      match splitSep sep rest with
      | [] => [[c]]
      | p :: ps => (c :: p) :: ps

/-- `strings.Join`: concatenate with the separator between elements. -/
def joinSep (sep : GoStr) : List GoStr → GoStr
  | [] => []
  | [x] => x
  | x :: y :: rest => x ++ sep ++ joinSep sep (y :: rest)

/-- `strings.Cut` on a one-byte separator: the parts before and after the
first occurrence; when absent, the whole string and the empty string. -/
def cutByte (sep : Nat) : GoStr → GoStr × GoStr
  | [] => ([], [])
  | c :: rest =>
    if c = sep then ([], rest)
    else
      let p := cutByte sep rest
      (c :: p.1, p.2)

/-- Go's byte-wise lexicographic string order (`s <= t`), the comparison
behind `sort.Strings`. -/
def leB : GoStr → GoStr → Bool
  | [], _ => true
  | _ :: _, [] => false
  | a :: as, b :: bs => if a < b then true else if b < a then false else leB as bs

/-- Insertion into a `le`-sorted list. -/
def insertLe {α : Type} (le : α → α → Bool) (x : α) : List α → List α
  | [] => [x]
  | y :: ys => if le x y then x :: y :: ys else y :: insertLe le x ys

/-- Insertion sort: the model of `sort.Strings`/`sort.Slice` (ascending; on
duplicates-free-or-equal byte strings the sorted arrangement is unique). -/
def insSort {α : Type} (le : α → α → Bool) : List α → List α
  | [] => []
  | x :: xs => insertLe le x (insSort le xs)

/-! ## Percent-encoding and the canonical URI (s3client.go:232-280) -/

/-- The RFC 3986 unreserved set kept verbatim by `encodeRFC3986`
(s3client.go:270-273): ALPHA / DIGIT / `-` / `_` / `.` / `~`. -/
def isUnreservedByte (c : Nat) : Bool :=
  (65 ≤ c && c ≤ 90) || (97 ≤ c && c ≤ 122) || (48 ≤ c && c ≤ 57) ||
  c == 45 || c == 95 || c == 46 || c == 126

/-- Uppercase hex digit byte of a value below 16 (the `%02X` format verb). -/
def hexDigitU (n : Nat) : Nat := if n < 10 then 48 + n else 55 + n

/-- `encodeRFC3986` (s3client.go:265-280): keep unreserved bytes, render
every other byte as uppercase `%XX`. -/
def encodeRFC3986 : GoStr → GoStr
  | [] => []
  | c :: rest =>
    if isUnreservedByte c then c :: encodeRFC3986 rest
    else 37 :: hexDigitU ((c / 16) % 16) :: hexDigitU (c % 16) :: encodeRFC3986 rest

/-- `buildCanonicalURI` (s3client.go:232-238): split the key on `/`, encode
each segment independently, and rejoin under `/bucket/`. -/
def buildCanonicalURI (bucket key : GoStr) : GoStr :=
  [47] ++ bucket ++ [47] ++ joinSep [47] ((splitSep 47 key).map encodeRFC3986)

/-! ## The header map (`net/http.Header` keyed by canonical MIME keys) -/

/-- Bytes allowed in a header field name (`net/textproto`'s token table:
alphanumerics and specials of RFC 7230 tokens). -/
def validHeaderFieldByte (c : Nat) : Bool :=
  (48 ≤ c && c ≤ 57) || (65 ≤ c && c ≤ 90) || (97 ≤ c && c ≤ 122) ||
  c == 33 || c == 35 || c == 36 || c == 37 || c == 38 || c == 39 || c == 42 ||
  c == 43 || c == 45 || c == 46 || c == 94 || c == 95 || c == 96 || c == 124 || c == 126

/-- The case-mapping pass of MIME canonicalization: uppercase at the start
and after each `-`, lowercase elsewhere. -/
def canonHeaderBytes : Bool → GoStr → GoStr
  | _, [] => []
  | up, c :: rest =>
    let c2 :=
      if up ∧ 97 ≤ c ∧ c ≤ 122 then c - 32
      else if ¬ up ∧ 65 ≤ c ∧ c ≤ 90 then c + 32
      else c
    c2 :: canonHeaderBytes (c2 == 45) rest

/-- `textproto.CanonicalMIMEHeaderKey`: canonicalize valid token names,
return invalid ones unchanged. -/
def canonicalMIMEHeaderKey (s : GoStr) : GoStr :=
  if s.all validHeaderFieldByte then canonHeaderBytes true s else s

/-- The header map contents: canonical-key/value pairs. -/
abbrev Headers := List (GoStr × GoStr)

/-- `http.Header.Set`: store the single value under the canonical key,
replacing previous values of that key. -/
def headerSet (hs : Headers) (key val : GoStr) : Headers :=
  let ck := canonicalMIMEHeaderKey key
  (ck, val) :: hs.filter (fun p => p.1 != ck)

/-- `http.Header.Get`: the first value stored under the canonical form of the
asked key, or the empty string. -/
def headerGet (hs : Headers) (key : GoStr) : GoStr :=
  match hs.find? (fun p => p.1 == canonicalMIMEHeaderKey key) with
  | some p => p.2
  | none => []

/-- The parts of an `http.Request` the signing code reads: the method, the
URL's host and raw query, and the header map. -/
structure Request where
  method : GoStr
  host : GoStr
  rawQuery : GoStr
  headers : Headers

/-- `getCanonicalHeaders` (s3client.go:179-193): lower-cased names sorted
ascending, each rendered `name:trimmed-value` and newline-terminated. -/
def getCanonicalHeaders (req : Request) : GoStr :=
  let headers := insSort leB (req.headers.map (fun p => lowerStr p.1))
  let canonical := headers.map (fun k => k ++ 58 :: trimSpace (headerGet req.headers k))
  joinSep [10] canonical ++ [10]

/-- `getSignedHeaders` (s3client.go:196-203): the same lower-cased sorted
names, joined with `;`. -/
def getSignedHeaders (req : Request) : GoStr :=
  joinSep [59] (insSort leB (req.headers.map (fun p => lowerStr p.1)))

/-- Concatenated map (the nested `for key { for v { parts = append(...) } }`
loops building flat lists). -/
def catMap {α β : Type} (f : α → List β) : List α → List β
  | [] => []
  | x :: xs => f x ++ catMap f xs

/-! ## Query canonicalization (s3client.go:240-263 over `net/url.ParseQuery`) -/

/-- A hex digit byte (`url.ishex`). -/
def isHexByte (c : Nat) : Bool :=
  (48 ≤ c && c ≤ 57) || (97 ≤ c && c ≤ 102) || (65 ≤ c && c ≤ 70)

/-- Value of a hex digit byte (`url.unhex`). -/
def unhexByte (c : Nat) : Nat :=
  if c ≤ 57 then c - 48 else if c ≤ 70 then c - 55 else c - 87

/-- `url.QueryUnescape`: `%XX` decodes to a byte (failing on a short or
non-hex escape), `+` becomes space, other bytes pass through. -/
def unescapeQuery : GoStr → Option GoStr
  | [] => some []
  | 37 :: h1 :: h2 :: rest =>
    if isHexByte h1 && isHexByte h2 then
      (unescapeQuery rest).map (fun t => (unhexByte h1 * 16 + unhexByte h2) :: t)
    else none
  | 37 :: _ => none
  | 43 :: rest => (unescapeQuery rest).map (fun t => 32 :: t)
  | c :: rest => (unescapeQuery rest).map (fun t => c :: t)

/-- Append a value under a key of the `url.Values` map
(`m[key] = append(m[key], value)`), keeping first-insertion key order. -/
def qInsert (m : List (GoStr × List GoStr)) (k v : GoStr) : List (GoStr × List GoStr) :=
  match m with
  | [] => [(k, [v])]
  | (k2, vs) :: rest => if k2 = k then (k2, vs ++ [v]) :: rest else (k2, vs) :: qInsert rest k v

/-- `url.parseQuery`'s loop over the `&`-separated segments: a segment with a
semicolon or a bad escape records an error (dooming the caller's result, so
modelled as `none`); empty segments are skipped; otherwise the segment is
cut at the first `=` and both halves unescaped. -/
def parseQueryLoop (m : List (GoStr × List GoStr)) :
    List GoStr → Option (List (GoStr × List GoStr))
  | [] => some m
  | seg :: rest =>
    if seg.contains 59 then none
    else if seg = [] then parseQueryLoop m rest
    else
      match unescapeQuery (cutByte 61 seg).1, unescapeQuery (cutByte 61 seg).2 with
      | some k, some v => parseQueryLoop (qInsert m k v) rest
      | _, _ => none

/-- `url.ParseQuery`: the map when every segment parses, `none` otherwise. -/
def parseQueryGo (rawQuery : GoStr) : Option (List (GoStr × List GoStr)) :=
  parseQueryLoop [] (splitSep 38 rawQuery)

/-- `values[key]` on the parsed map. -/
def lookupVals (m : List (GoStr × List GoStr)) (k : GoStr) : List GoStr :=
  match m.find? (fun p => p.1 == k) with
  | some p => p.2
  | none => []

/-- `canonicalQueryString` (s3client.go:240-263): empty and unparsable
queries give the empty string; otherwise keys sorted, values sorted per key,
each pair rendered `enc(key)=enc(value)` and joined with `&`. -/
def canonicalQueryString (rawQuery : GoStr) : GoStr :=
  if rawQuery = [] then []
  else
    match parseQueryGo rawQuery with
    | none => []
    | some values =>
      let keys := insSort leB (values.map (fun p => p.1))
      joinSep [38] (catMap (fun key =>
        (insSort leB (lookupVals values key)).map
          (fun v => encodeRFC3986 key ++ [61] ++ encodeRFC3986 v)) keys)

/-- The same parsing loop, recording the flat (key, value) pair sequence in
input order — the "(key, value) pairs" of the specification text. -/
def parsePairsLoop (acc : List (GoStr × GoStr)) :
    List GoStr → Option (List (GoStr × GoStr))
  | [] => some acc
  | seg :: rest =>
    if seg.contains 59 then none
    else if seg = [] then parsePairsLoop acc rest
    else
      match unescapeQuery (cutByte 61 seg).1, unescapeQuery (cutByte 61 seg).2 with
      | some k, some v => parsePairsLoop (acc ++ [(k, v)]) rest
      | _, _ => none

/-- The flat parsed pair list of a raw query. -/
def parsePairs (rawQuery : GoStr) : Option (List (GoStr × GoStr)) :=
  parsePairsLoop [] (splitSep 38 rawQuery)

/-- Pair order: primarily by key, then by value, both byte-wise ascending. -/
def lePairB (p q : GoStr × GoStr) : Bool :=
  if p.1 = q.1 then leB p.2 q.2 else leB p.1 q.1

/-- The specification's query pipeline, stated as written: parse into (key,
value) pairs, sort the pairs primarily by key then by value, percent-encode
each side, join as `key=value` with `&`; empty or unparsable input gives the
empty string. -/
def canonicalQuerySpec (rawQuery : GoStr) : GoStr :=
  if rawQuery = [] then []
  else
    match parsePairs rawQuery with
    | none => []
    | some ps =>
      joinSep [38] ((insSort lePairB ps).map
        (fun p => encodeRFC3986 p.1 ++ [61] ++ encodeRFC3986 p.2))

/-- The flat (key, value) pair content of a parsed query map, in map
order — the bridge between the map-grouped code and the spec's pair list. -/
def mPairs (m : List (GoStr × List GoStr)) : List (GoStr × GoStr) :=
  catMap (fun e => e.2.map (fun v => (e.1, v))) m

/-! ## Request signing (`signRequest`, s3client.go:124-176) -/

/-- The embedded empty-body SHA-256 constant (s3client.go:131). -/
def emptyPayloadHash : GoStr :=
  gs "e3b0c44298fc1c149afbf4c8996fb92427ae41e4649b934ca495991b7852b855"

/-- Every value `signRequest` computes, observable for verification: the
final header map plus the intermediate canonical strings. -/
structure SignOut where
  headers : Headers
  payloadHash : GoStr
  canonicalHeaders : GoStr
  signedHeaders : GoStr
  canonicalURI : GoStr
  canonicalQuery : GoStr
  canonicalRequest : GoStr
  credentialScope : GoStr
  stringToSign : GoStr
  signature : GoStr
  authHeader : GoStr

/-- `signRequest` (s3client.go:124-176).  The two stamps derived from the one
captured `time.Now().UTC()` are parameters; an empty payload hash (the GET
path) is replaced by the embedded empty-body constant. -/
def signRequest (c : S3Client) (req : Request)
    (bucket key payloadHash0 dateStamp timeStamp : GoStr) : SignOut :=
  let payloadHash := if payloadHash0 = [] then emptyPayloadHash else payloadHash0
  let h1 := headerSet req.headers (gs "Host") req.host
  let h2 := headerSet h1 (gs "X-Amz-Date") timeStamp
  let h3 := headerSet h2 (gs "X-Amz-Content-Sha256") payloadHash
  let req2 : Request := { req with headers := h3 }
  let canonicalHeaders := getCanonicalHeaders req2
  let signedHeaders := getSignedHeaders req2
  let canonicalURI := buildCanonicalURI bucket key
  let canonicalQuery := canonicalQueryString req2.rawQuery
  let canonicalRequest := req2.method ++ [10] ++ canonicalURI ++ [10] ++ canonicalQuery ++
    [10] ++ canonicalHeaders ++ [10] ++ signedHeaders ++ [10] ++ payloadHash
  let credentialScope := dateStamp ++ [47] ++ c.Region ++ gs "/s3/aws4_request"
  let stringToSign := gs "AWS4-HMAC-SHA256" ++ [10] ++ timeStamp ++ [10] ++ credentialScope ++
    [10] ++ toHexStr (sha256Sum canonicalRequest)
  let signature := calculateSignature c dateStamp stringToSign
  let authHeader := gs "AWS4-HMAC-SHA256 Credential=" ++ c.AccessKeyID ++ [47] ++
    credentialScope ++ gs ", SignedHeaders=" ++ signedHeaders ++ gs ", Signature=" ++ signature
  let h4 := headerSet h3 (gs "Authorization") authHeader
  { headers := h4, payloadHash := payloadHash, canonicalHeaders := canonicalHeaders,
    signedHeaders := signedHeaders, canonicalURI := canonicalURI,
    canonicalQuery := canonicalQuery, canonicalRequest := canonicalRequest,
    credentialScope := credentialScope, stringToSign := stringToSign,
    signature := signature, authHeader := authHeader }

/-! ## Response classification and upload assembly (s3client.go:37-121) -/

/-- Decimal digits of a number, fuelled. -/
def natToDecAux : Nat → Nat → List Nat
  | 0, _ => []
  | fuel + 1, n => if n < 10 then [48 + n] else natToDecAux fuel (n / 10) ++ [48 + n % 10]

/-- Decimal rendering of a number (the `%d` format verb). -/
def natToDec (n : Nat) : List Nat := natToDecAux (n + 1) n

/-- `GetObject`'s not-found error text, `"object not found: %s/%s"`. -/
def notFoundMessage (bucket key : GoStr) : GoStr :=
  gs "object not found: " ++ bucket ++ [47] ++ key

/-- `GetObject`'s generic error text, `"S3 error %d: %s"`. -/
def s3ErrorMessage (status : Nat) (body : GoStr) : GoStr :=
  gs "S3 error " ++ natToDec status ++ gs ": " ++ body

/-- `GetObject`'s response classification (s3client.go:59-70): 404 first,
then any non-200 status, then the 200 body handed to the caller. -/
def getObjectOutcome (bucket key : GoStr) (status : Nat) (body : GoStr) : Except GoStr GoStr :=
  if status = 404 then Except.error (notFoundMessage bucket key)
  else if status ≠ 200 then Except.error (s3ErrorMessage status body)
  else Except.ok body

/-- A seekable in-memory view of the upload body (the `io.ReadSeeker`). -/
structure ByteReader where
  buf : GoStr
  pos : Nat

/-- `Seek(0, 0)`: rewind to the start. -/
def seekStart (r : ByteReader) : ByteReader := { r with pos := 0 }

/-- Reading the body to the end (`io.Copy` into the hash): the bytes from
the current position, leaving the position at the end. -/
def readAll (r : ByteReader) : GoStr × ByteReader :=
  (r.buf.drop r.pos, { r with pos := r.buf.length })

/-- What `PutObject` hands to the HTTP layer. -/
structure PutOut where
  contentLength : Nat
  contentType : GoStr
  sign : SignOut
  bodyAtSend : GoStr

/-- `PutObject`'s request assembly (s3client.go:74-106): set Content-Length
to `size` and the Content-Type header, rewind, hash the whole body, rewind
again, sign with the hex hash; the HTTP layer then reads the body from the
reader's position at send time. -/
def putObjectRequest (c : S3Client) (bucket key host : GoStr)
    (reader : ByteReader) (size : Nat) (dateStamp timeStamp : GoStr) : PutOut :=
  let h0 := headerSet [] (gs "Content-Type") (gs "application/octet-stream")
  let r1 := seekStart reader
  let hashed := readAll r1
  let payloadHashStr := toHexStr (sha256Sum hashed.1)
  let r3 := seekStart hashed.2
  let req : Request := { method := gs "PUT", host := host, rawQuery := [], headers := h0 }
  let sout := signRequest c req bucket key payloadHashStr dateStamp timeStamp
  { contentLength := size, contentType := gs "application/octet-stream",
    sign := sout, bodyAtSend := r3.buf.drop r3.pos }

/-! ## Theorems -/

theorem sha256Sum_empty :
    toHexStr (sha256Sum []) =
      gs "e3b0c44298fc1c149afbf4c8996fb92427ae41e4649b934ca495991b7852b855" := by decide

theorem sha256Sum_abc :
    toHexStr (sha256Sum (gs "abc")) =
      gs "ba7816bf8f01cfea414140de5dae2223b00361a396177a9cb410ff61f20015ad" := by decide

theorem hash8Bytes_length (hh : Hash8) : (hash8Bytes hh).length = 32 := rfl

theorem sha256Sum_length (m : List Nat) : (sha256Sum m).length = 32 :=
  hash8Bytes_length _

theorem hmacSHA256_length (key data : List Nat) : (hmacSHA256 key data).length = 32 :=
  sha256Sum_length _

theorem toHexStr_length (l : List Nat) : (toHexStr l).length = 2 * l.length := by
  induction l with
  | nil => rfl
  | cons b rest ih => simp [toHexStr, ih]; omega

theorem hexDigitL_range {n : Nat} (h : n < 16) :
    (48 ≤ hexDigitL n ∧ hexDigitL n ≤ 57) ∨ (97 ≤ hexDigitL n ∧ hexDigitL n ≤ 102) := by
  unfold hexDigitL
  split <;> omega

theorem toHexStr_hexchars (l : List Nat) :
    ∀ ch ∈ toHexStr l, (48 ≤ ch ∧ ch ≤ 57) ∨ (97 ≤ ch ∧ ch ≤ 102) := by
  induction l with
  | nil => intro ch hm; cases hm
  | cons b rest ih =>
    intro ch hm
    simp only [toHexStr, List.mem_cons] at hm
    rcases hm with rfl | rfl | hm
    · exact hexDigitL_range (Nat.mod_lt _ (by norm_num))
    · exact hexDigitL_range (Nat.mod_lt _ (by norm_num))
    · exact ih ch hm

/-- C1: `calculateSignature` is exactly the four-stage HMAC-SHA256 chain
`k_date = HMAC(AWS4+secret, date)`, `k_region = HMAC(k_date, region)`,
`k_service = HMAC(k_region, "s3")`, `k_signing = HMAC(k_service,
"aws4_request")` followed by lowercase-hex of `HMAC(k_signing,
string_to_sign)`; every stage consumes the raw 32-byte previous key (each
intermediate has length 32, and no hex encoding intervenes), and the result
is a 64-character lowercase-hex string. -/
theorem c1_calculateSignature_key_chain (c : S3Client) (dateStamp stringToSign : GoStr) :
    calculateSignature c dateStamp stringToSign =
      toHexStr (hmacSHA256 (hmacSHA256 (hmacSHA256 (hmacSHA256
        (hmacSHA256 (gs "AWS4" ++ c.SecretAccessKey) dateStamp) c.Region)
        (gs "s3")) (gs "aws4_request")) stringToSign) ∧
    (hmacSHA256 (gs "AWS4" ++ c.SecretAccessKey) dateStamp).length = 32 ∧
    (hmacSHA256 (hmacSHA256 (gs "AWS4" ++ c.SecretAccessKey) dateStamp) c.Region).length = 32 ∧
    (hmacSHA256 (hmacSHA256 (hmacSHA256 (gs "AWS4" ++ c.SecretAccessKey) dateStamp)
      c.Region) (gs "s3")).length = 32 ∧
    (hmacSHA256 (hmacSHA256 (hmacSHA256 (hmacSHA256 (gs "AWS4" ++ c.SecretAccessKey)
      dateStamp) c.Region) (gs "s3")) (gs "aws4_request")).length = 32 ∧
    (calculateSignature c dateStamp stringToSign).length = 64 ∧
    ∀ ch ∈ calculateSignature c dateStamp stringToSign,
      (48 ≤ ch ∧ ch ≤ 57) ∨ (97 ≤ ch ∧ ch ≤ 102) := by
  refine ⟨rfl, hmacSHA256_length _ _, hmacSHA256_length _ _, hmacSHA256_length _ _,
    hmacSHA256_length _ _, ?_, ?_⟩
  · calc (calculateSignature c dateStamp stringToSign).length
        = (toHexStr (hmacSHA256 (hmacSHA256 (hmacSHA256 (hmacSHA256
            (hmacSHA256 (gs "AWS4" ++ c.SecretAccessKey) dateStamp) c.Region)
            (gs "s3")) (gs "aws4_request")) stringToSign)).length := rfl
      _ = 64 := by rw [toHexStr_length, hmacSHA256_length]
  · exact fun ch hm => toHexStr_hexchars _ ch hm

theorem find?_filter_imp {α : Type} (p q : α → Bool) (l : List α)
    (h : ∀ x, p x = true → q x = true) :
    List.find? p (l.filter q) = List.find? p l := by
  induction l with
  | nil => rfl
  | cons a l ih =>
    cases hp : p a with
    | true => simp [List.filter_cons, h a hp, List.find?_cons, hp]
    | false =>
      cases hq : q a with
      | true => simp [List.filter_cons, hq, List.find?_cons, hp, ih]
      | false => simp [List.filter_cons, hq, List.find?_cons, hp, ih]

theorem headerGet_set_eq (hs : Headers) (k v : GoStr) :
    headerGet (headerSet hs k v) k = v := by
  unfold headerGet headerSet
  simp [List.find?_cons]

theorem headerGet_set_ne (hs : Headers) (k k2 v : GoStr)
    (h : canonicalMIMEHeaderKey k ≠ canonicalMIMEHeaderKey k2) :
    headerGet (headerSet hs k2 v) k = headerGet hs k := by
  unfold headerGet headerSet
  have h1 : ((canonicalMIMEHeaderKey k2, v).1 == canonicalMIMEHeaderKey k) = false := by
    simp only [beq_eq_false_iff_ne]
    exact Ne.symm h
  have himp : ∀ x : GoStr × GoStr, (x.1 == canonicalMIMEHeaderKey k) = true →
      (x.1 != canonicalMIMEHeaderKey k2) = true := by
    intro x hx
    have hx2 : x.1 = canonicalMIMEHeaderKey k := by simpa using hx
    simp [hx2]
    exact h
  simp only [List.find?_cons, h1]
  rw [find?_filter_imp _ _ _ himp]

theorem signRequest_headers_eq (c : S3Client) (req : Request)
    (bucket key ph ds ts : GoStr) :
    (signRequest c req bucket key ph ds ts).headers =
      headerSet (headerSet (headerSet (headerSet req.headers (gs "Host") req.host)
        (gs "X-Amz-Date") ts) (gs "X-Amz-Content-Sha256")
        (signRequest c req bucket key ph ds ts).payloadHash)
      (gs "Authorization") (signRequest c req bucket key ph ds ts).authHeader := rfl

theorem signRequest_canonicalRequest_eq (c : S3Client) (req : Request)
    (bucket key ph ds ts : GoStr) :
    (signRequest c req bucket key ph ds ts).canonicalRequest =
      req.method ++ [10] ++ (signRequest c req bucket key ph ds ts).canonicalURI ++ [10] ++
      (signRequest c req bucket key ph ds ts).canonicalQuery ++ [10] ++
      (signRequest c req bucket key ph ds ts).canonicalHeaders ++ [10] ++
      (signRequest c req bucket key ph ds ts).signedHeaders ++ [10] ++
      (signRequest c req bucket key ph ds ts).payloadHash := rfl

theorem signRequest_payloadHash_empty (c : S3Client) (req : Request)
    (bucket key ds ts : GoStr) :
    (signRequest c req bucket key [] ds ts).payloadHash = emptyPayloadHash := rfl

/-- C2: the string to sign is exactly `AWS4-HMAC-SHA256 \n time_stamp \n
credential_scope \n hex(sha256(canonical_request))` with
`credential_scope = date_stamp/region/s3/aws4_request`, and the
Authorization header value is exactly `AWS4-HMAC-SHA256
Credential=access_key/credential_scope, SignedHeaders=signed_header_list,
Signature=signature`, as set on the request. -/
theorem c2_string_to_sign_and_auth (c : S3Client) (req : Request)
    (bucket key payloadHash0 dateStamp timeStamp : GoStr) :
    (signRequest c req bucket key payloadHash0 dateStamp timeStamp).credentialScope =
      dateStamp ++ [47] ++ c.Region ++ gs "/s3/aws4_request" ∧
    (signRequest c req bucket key payloadHash0 dateStamp timeStamp).stringToSign =
      gs "AWS4-HMAC-SHA256" ++ [10] ++ timeStamp ++ [10] ++
        (signRequest c req bucket key payloadHash0 dateStamp timeStamp).credentialScope ++
        [10] ++ toHexStr (sha256Sum
          (signRequest c req bucket key payloadHash0 dateStamp timeStamp).canonicalRequest) ∧
    (signRequest c req bucket key payloadHash0 dateStamp timeStamp).authHeader =
      gs "AWS4-HMAC-SHA256 Credential=" ++ c.AccessKeyID ++ [47] ++
        (signRequest c req bucket key payloadHash0 dateStamp timeStamp).credentialScope ++
        gs ", SignedHeaders=" ++
        (signRequest c req bucket key payloadHash0 dateStamp timeStamp).signedHeaders ++
        gs ", Signature=" ++
        (signRequest c req bucket key payloadHash0 dateStamp timeStamp).signature ∧
    headerGet (signRequest c req bucket key payloadHash0 dateStamp timeStamp).headers
        (gs "Authorization") =
      (signRequest c req bucket key payloadHash0 dateStamp timeStamp).authHeader := by
  refine ⟨rfl, rfl, rfl, ?_⟩
  rw [signRequest_headers_eq]
  exact headerGet_set_eq _ _ _

/-- C6: for a body-less (GET) request the payload hash is the embedded
constant `e3b0...b855`, which equals the lowercase-hex SHA-256 of the empty
byte string; it is placed in the `x-amz-content-sha256` header and is the
final, newline-separated component of the canonical request. -/
theorem c6_empty_payload_hash (c : S3Client) (req : Request)
    (bucket key dateStamp timeStamp : GoStr) :
    emptyPayloadHash = toHexStr (sha256Sum []) ∧
    (signRequest c req bucket key [] dateStamp timeStamp).payloadHash = emptyPayloadHash ∧
    headerGet (signRequest c req bucket key [] dateStamp timeStamp).headers
      (gs "X-Amz-Content-Sha256") = emptyPayloadHash ∧
    List.IsSuffix ([10] ++ emptyPayloadHash)
      (signRequest c req bucket key [] dateStamp timeStamp).canonicalRequest := by
  refine ⟨by decide, rfl, ?_, ?_⟩
  · rw [signRequest_headers_eq]
    have hne : canonicalMIMEHeaderKey (gs "X-Amz-Content-Sha256") ≠
        canonicalMIMEHeaderKey (gs "Authorization") := by decide
    rw [headerGet_set_ne _ _ _ _ hne, headerGet_set_eq]
    exact signRequest_payloadHash_empty c req bucket key dateStamp timeStamp
  · refine ⟨req.method ++ [10] ++
      (signRequest c req bucket key [] dateStamp timeStamp).canonicalURI ++ [10] ++
      (signRequest c req bucket key [] dateStamp timeStamp).canonicalQuery ++ [10] ++
      (signRequest c req bucket key [] dateStamp timeStamp).canonicalHeaders ++ [10] ++
      (signRequest c req bucket key [] dateStamp timeStamp).signedHeaders, ?_⟩
    rw [signRequest_canonicalRequest_eq, signRequest_payloadHash_empty]
    simp [List.append_assoc]

theorem hexDigitU_range {n : Nat} (h : n < 16) :
    (48 ≤ hexDigitU n ∧ hexDigitU n ≤ 57) ∨ (65 ≤ hexDigitU n ∧ hexDigitU n ≤ 70) := by
  unfold hexDigitU
  split <;> omega

/-- C3: the canonical URI is `/bucket/` followed by the key's `/`-separated
segments each percent-encoded independently; the encoding keeps exactly the
unreserved set `{A-Z a-z 0-9 - _ . ~}` and turns every other byte into
uppercase `%XX`; the known vector holds. -/
theorem c3_canonical_uri (bucket key : GoStr) :
    buildCanonicalURI bucket key =
      [47] ++ bucket ++ [47] ++ joinSep [47] ((splitSep 47 key).map encodeRFC3986) ∧
    (∀ b : Nat, isUnreservedByte b = true ↔
      (65 ≤ b ∧ b ≤ 90) ∨ (97 ≤ b ∧ b ≤ 122) ∨ (48 ≤ b ∧ b ≤ 57) ∨
        b = 45 ∨ b = 95 ∨ b = 46 ∨ b = 126) ∧
    (∀ b : Nat, isUnreservedByte b = true → encodeRFC3986 [b] = [b]) ∧
    (∀ b : Nat, b < 256 → isUnreservedByte b = false →
      encodeRFC3986 [b] = [37, hexDigitU (b / 16), hexDigitU (b % 16)] ∧
      ((48 ≤ hexDigitU (b / 16) ∧ hexDigitU (b / 16) ≤ 57) ∨
        (65 ≤ hexDigitU (b / 16) ∧ hexDigitU (b / 16) ≤ 70)) ∧
      ((48 ≤ hexDigitU (b % 16) ∧ hexDigitU (b % 16) ≤ 57) ∨
        (65 ≤ hexDigitU (b % 16) ∧ hexDigitU (b % 16) ≤ 70))) ∧
    buildCanonicalURI (gs "my-bucket") (gs "folder/a b/c+d.txt") =
      gs "/my-bucket/folder/a%20b/c%2Bd.txt" := by
  refine ⟨rfl, ?_, ?_, ?_, by decide⟩
  · intro b
    simp [isUnreservedByte]
    omega
  · intro b hu
    simp [encodeRFC3986, hu]
  · intro b hb hnu
    have hdiv : b / 16 < 16 := by
      rw [Nat.div_lt_iff_lt_mul (by norm_num)]
      omega
    have hmod : b % 16 < 16 := Nat.mod_lt _ (by norm_num)
    refine ⟨?_, hexDigitU_range hdiv, hexDigitU_range hmod⟩
    simp [encodeRFC3986, hnu, Nat.mod_eq_of_lt hdiv]

theorem c3_canonical_uri_witness :
    encodeRFC3986 [65] = [65] ∧ encodeRFC3986 [43] = [37, 50, 66] := by
  refine ⟨(c3_canonical_uri [] []).2.2.1 65 (by decide), ?_⟩
  have h2 := ((c3_canonical_uri [] []).2.2.2.1 43 (by decide) (by decide)).1
  exact h2.trans (by decide)

/-- C10: a raw query string that fails to parse canonicalizes to the empty
string — the same result as the empty query — rather than an error. -/
theorem c10_unparsable_query_empty (raw : GoStr) (h : parseQueryGo raw = none) :
    canonicalQueryString raw = [] ∧ canonicalQueryString [] = [] := by
  constructor
  · unfold canonicalQueryString
    by_cases he : raw = []
    · simp [he]
    · simp [he, h]
  · rfl

theorem c10_unparsable_query_empty_witness :
    parseQueryGo (gs "a=%zz") = none ∧ canonicalQueryString (gs "a=%zz") = [] :=
  ⟨by decide, (c10_unparsable_query_empty _ (by decide)).1⟩

theorem splitSep_ne_nil (sep : Nat) (s : GoStr) : splitSep sep s ≠ [] := by
  cases s with
  | nil => simp [splitSep]
  | cons c rest =>
    unfold splitSep
    by_cases h : c = sep
    · simp [h]
    · simp only [h, if_false]
      cases hs : splitSep sep rest <;> simp

theorem splitSep_append_sep (sep : Nat) (a b : GoStr) :
    splitSep sep (a ++ sep :: b) = splitSep sep a ++ splitSep sep b := by
  induction a with
  | nil => simp [splitSep]
  | cons c a ih =>
    by_cases h : c = sep
    · subst h
      simp [splitSep, ih]
    · rw [List.cons_append]
      simp only [splitSep, h, if_false, ih]
      cases hs : splitSep sep a with
      | nil => exact absurd hs (splitSep_ne_nil _ _)
      | cons p ps => simp

theorem splitSep_of_not_mem {sep : Nat} {s : GoStr} (h : sep ∉ s) : splitSep sep s = [s] := by
  induction s with
  | nil => rfl
  | cons c rest ih =>
    have hc : ¬ c = sep := fun he => h (he ▸ List.mem_cons_self c rest)
    have hr : sep ∉ rest := fun hm => h (List.mem_cons_of_mem _ hm)
    simp [splitSep, hc, ih hr]

theorem joinSep_cons_cons (sep : Nat) (x y : GoStr) (rest : List GoStr) :
    joinSep [sep] (x :: y :: rest) = x ++ sep :: joinSep [sep] (y :: rest) := by
  simp [joinSep]

theorem splitSep_joinSep (sep : Nat) (l : List GoStr) (hne : l ≠ [])
    (hx : ∀ x ∈ l, sep ∉ x) : splitSep sep (joinSep [sep] l) = l := by
  induction l with
  | nil => exact absurd rfl hne
  | cons x rest ih =>
    cases rest with
    | nil => exact splitSep_of_not_mem (hx x (List.mem_cons_self _ _))
    | cons y rest2 =>
      rw [joinSep_cons_cons, splitSep_append_sep,
        splitSep_of_not_mem (hx x (List.mem_cons_self _ _)),
        ih (by simp) (fun z hz => hx z (List.mem_cons_of_mem _ hz))]
      rfl

theorem mem_splitSep_joinSep {sep : Nat} {x : GoStr} {l : List GoStr}
    (hm : x ∈ l) (hx : sep ∉ x) : x ∈ splitSep sep (joinSep [sep] l) := by
  induction l with
  | nil => cases hm
  | cons y rest ih =>
    cases rest with
    | nil =>
      rcases List.mem_cons.mp hm with rfl | hm2
      · rw [show joinSep [sep] [x] = x from rfl, splitSep_of_not_mem hx]
        exact List.mem_cons_self _ _
      · cases hm2
    | cons z rest2 =>
      rw [joinSep_cons_cons, splitSep_append_sep]
      rcases List.mem_cons.mp hm with rfl | hm2
      · rw [splitSep_of_not_mem hx]
        exact List.mem_append_left _ (List.mem_cons_self _ _)
      · exact List.mem_append_right _ (ih hm2)

theorem insertLe_perm {α : Type} (le : α → α → Bool) (x : α) (l : List α) :
    List.Perm (insertLe le x l) (x :: l) := by
  induction l with
  | nil => exact List.Perm.refl _
  | cons y ys ih =>
    unfold insertLe
    by_cases h : le x y = true
    · rw [if_pos h]
    · rw [if_neg h]
      exact (ih.cons y).trans (List.Perm.swap x y ys)

theorem insSort_perm {α : Type} (le : α → α → Bool) (l : List α) :
    List.Perm (insSort le l) l := by
  induction l with
  | nil => exact List.Perm.refl _
  | cons x xs ih => exact (insertLe_perm le x (insSort le xs)).trans (ih.cons x)

theorem insertLe_pairwise {α : Type} (le : α → α → Bool)
    (htot : ∀ a b, le a b = true ∨ le b a = true)
    (htrans : ∀ a b c, le a b = true → le b c = true → le a c = true)
    (x : α) (l : List α)
    (hl : List.Pairwise (fun a b => le a b = true) l) :
    List.Pairwise (fun a b => le a b = true) (insertLe le x l) := by
  induction l with
  | nil => simp [insertLe]
  | cons y ys ih =>
    rw [List.pairwise_cons] at hl
    obtain ⟨hy, hys⟩ := hl
    unfold insertLe
    by_cases h : le x y = true
    · rw [if_pos h]
      refine List.Pairwise.cons ?_ (List.Pairwise.cons hy hys)
      intro z hz
      rcases List.mem_cons.mp hz with rfl | hz2
      · exact h
      · exact htrans x y z h (hy z hz2)
    · rw [if_neg h]
      have hyx : le y x = true := (htot x y).resolve_left h
      refine List.Pairwise.cons ?_ (ih hys)
      intro z hz
      have hz2 := (insertLe_perm le x ys).mem_iff.mp hz
      rcases List.mem_cons.mp hz2 with rfl | hz3
      · exact hyx
      · exact hy z hz3

theorem insSort_pairwise {α : Type} (le : α → α → Bool)
    (htot : ∀ a b, le a b = true ∨ le b a = true)
    (htrans : ∀ a b c, le a b = true → le b c = true → le a c = true)
    (l : List α) :
    List.Pairwise (fun a b => le a b = true) (insSort le l) := by
  induction l with
  | nil => simp [insSort]
  | cons x xs ih => exact insertLe_pairwise le htot htrans x _ ih

theorem leB_total (a b : GoStr) : leB a b = true ∨ leB b a = true := by
  induction a generalizing b with
  | nil => left; rfl
  | cons x xs ih =>
    cases b with
    | nil => right; rfl
    | cons y ys =>
      rcases Nat.lt_trichotomy x y with h | h | h
      · left; simp [leB, h]
      · subst h
        rcases ih ys with h2 | h2
        · left; simp [leB, h2]
        · right; simp [leB, h2]
      · right; simp [leB, h]

theorem leB_trans (a b c : GoStr) (h1 : leB a b = true) (h2 : leB b c = true) :
    leB a c = true := by
  induction a generalizing b c with
  | nil => rfl
  | cons x xs ih =>
    cases b with
    | nil => simp [leB] at h1
    | cons y ys =>
      cases c with
      | nil => simp [leB] at h2
      | cons z zs =>
        simp only [leB] at h1 h2 ⊢
        rcases Nat.lt_trichotomy x y with hxy | hxy | hxy
        · rcases Nat.lt_trichotomy y z with hyz | hyz | hyz
          · simp [show x < z by omega]
          · subst hyz; simp [hxy]
          · rw [if_neg (by omega), if_pos (by omega)] at h2
            simp at h2
        · subst hxy
          rw [if_neg (by omega), if_neg (by omega)] at h1
          rcases Nat.lt_trichotomy x z with hyz | hyz | hyz
          · simp [hyz]
          · subst hyz
            rw [if_neg (by omega), if_neg (by omega)] at h2 ⊢
            exact ih ys zs h1 h2
          · rw [if_neg (by omega), if_pos (by omega)] at h2
            simp at h2
        · rw [if_neg (by omega), if_pos (by omega)] at h1
          simp at h1

theorem leB_antisymm (a b : GoStr) (h1 : leB a b = true) (h2 : leB b a = true) :
    a = b := by
  induction a generalizing b with
  | nil =>
    cases b with
    | nil => rfl
    | cons y ys => simp [leB] at h2
  | cons x xs ih =>
    cases b with
    | nil => simp [leB] at h1
    | cons y ys =>
      simp only [leB] at h1 h2
      rcases Nat.lt_trichotomy x y with hxy | hxy | hxy
      · rw [if_neg (by omega), if_pos hxy] at h2
        simp at h2
      · subst hxy
        rw [if_neg (by omega), if_neg (by omega)] at h1 h2
        rw [ih ys h1 h2]
      · rw [if_neg (by omega), if_pos (by omega)] at h1
        simp at h1

theorem mem_trimSpace {x : Nat} {s : GoStr} (h : x ∈ trimSpace s) : x ∈ s := by
  unfold trimSpace at h
  rw [List.mem_reverse] at h
  have h2 := (List.dropWhile_suffix _).subset h
  rw [List.mem_reverse] at h2
  exact (List.dropWhile_suffix _).subset h2

theorem headerGet_cases (hs : Headers) (k : GoStr) :
    headerGet hs k = [] ∨ ∃ p ∈ hs, headerGet hs k = p.2 := by
  unfold headerGet
  cases hf : List.find? (fun p => p.1 == canonicalMIMEHeaderKey k) hs with
  | none => exact Or.inl rfl
  | some p => exact Or.inr ⟨p, List.mem_of_find?_eq_some hf, rfl⟩

theorem takeWhile_append_ne (k v : GoStr) (hk : ∀ c ∈ k, c ≠ 58) :
    List.takeWhile (fun c => c != 58) (k ++ 58 :: v) = k := by
  induction k with
  | nil => simp
  | cons c k ih =>
    have hc : (c != 58) = true := by
      simpa using hk c (List.mem_cons_self _ _)
    simp only [List.cons_append, List.takeWhile_cons, hc]
    rw [ih (fun z hz => hk z (List.mem_cons_of_mem _ hz))]
    simp

/-- C5: the in-order sequence of lower-cased header names in the canonical
header block of `getCanonicalHeaders` (the part of each newline-separated
line before its `:`) equals exactly the `;`-separated name sequence of
`getSignedHeaders`: same names, same sorted order. -/
theorem c5_header_name_agreement (req : Request)
    (hne : req.headers ≠ [])
    (hnames : ∀ p ∈ req.headers, 10 ∉ lowerStr p.1 ∧ 58 ∉ lowerStr p.1 ∧ 59 ∉ lowerStr p.1)
    (hvals : ∀ p ∈ req.headers, (10 : Nat) ∉ p.2) :
    (splitSep 10 (getCanonicalHeaders req)).dropLast.map
        (List.takeWhile (fun c => c != 58))
      = splitSep 59 (getSignedHeaders req) := by
  have hval10 : ∀ n : GoStr, (10 : Nat) ∉ trimSpace (headerGet req.headers n) := by
    intro n h10
    have h10s := mem_trimSpace h10
    rcases headerGet_cases req.headers n with hc | ⟨p, hp, hc⟩
    · rw [hc] at h10s
      cases h10s
    · rw [hc] at h10s
      exact hvals p hp h10s
  have hnn : insSort leB (req.headers.map (fun p => lowerStr p.1)) ≠ [] := by
    intro h0
    have hp := insSort_perm leB (req.headers.map (fun p => lowerStr p.1))
    rw [h0] at hp
    have h1 : req.headers.map (fun p => lowerStr p.1) = [] :=
      (List.perm_nil.mp hp.symm)
    exact hne (List.map_eq_nil_iff.mp h1)
  have hname3 : ∀ n ∈ insSort leB (req.headers.map (fun p => lowerStr p.1)),
      10 ∉ n ∧ 58 ∉ n ∧ 59 ∉ n := by
    intro n hn
    have := (insSort_perm leB (req.headers.map (fun p => lowerStr p.1))).mem_iff.mp hn
    rcases List.mem_map.mp this with ⟨p, hp, rfl⟩
    exact hnames p hp
  simp only [getCanonicalHeaders, getSignedHeaders]
  generalize hg : insSort leB (req.headers.map (fun p => lowerStr p.1)) = ns
  rw [hg] at hnn hname3
  have hentne : ns.map (fun k => k ++ 58 :: trimSpace (headerGet req.headers k)) ≠ [] := by
    intro h0
    exact hnn (List.map_eq_nil_iff.mp h0)
  have hent10 : ∀ e ∈ ns.map (fun k => k ++ 58 :: trimSpace (headerGet req.headers k)),
      (10 : Nat) ∉ e := by
    intro e he
    rcases List.mem_map.mp he with ⟨k, hk, rfl⟩
    intro h10
    rcases List.mem_append.mp h10 with h | h
    · exact (hname3 k hk).1 h
    · rcases List.mem_cons.mp h with h | h
      · exact absurd h (by decide)
      · exact hval10 k h
  have hjoin : splitSep 10
      (joinSep [10] (ns.map (fun k => k ++ 58 :: trimSpace (headerGet req.headers k))) ++ [10]) =
      ns.map (fun k => k ++ 58 :: trimSpace (headerGet req.headers k)) ++ [[]] := by
    rw [show (joinSep [10] (ns.map (fun k => k ++ 58 :: trimSpace (headerGet req.headers k))) ++
        [10] : GoStr) = joinSep [10] (ns.map
          (fun k => k ++ 58 :: trimSpace (headerGet req.headers k))) ++ 10 :: [] from rfl,
      splitSep_append_sep, splitSep_joinSep 10 _ hentne hent10]
    rfl
  rw [hjoin, List.dropLast_concat, List.map_map,
    splitSep_joinSep 59 ns hnn (fun x hx => (hname3 x hx).2.2)]
  have hcong : ∀ n ∈ ns,
      (List.takeWhile (fun c => c != 58) ∘ fun k => k ++ 58 :: trimSpace (headerGet req.headers k)) n
        = n := by
    intro n hn
    show List.takeWhile (fun c => c != 58) (n ++ 58 :: trimSpace (headerGet req.headers n)) = n
    exact takeWhile_append_ne _ _ (fun z hz he => (hname3 n hn).2.1 (he ▸ hz))
  rw [List.map_congr_left hcong]
  simp

theorem c5_header_name_agreement_witness :
    (splitSep 10 (getCanonicalHeaders (Request.mk (gs "GET") (gs "example.com") []
        [(gs "Host", gs "example.com"), (gs "X-Amz-Date", gs "20240101T000000Z")]))).dropLast.map
        (List.takeWhile (fun c => c != 58))
      = splitSep 59 (getSignedHeaders (Request.mk (gs "GET") (gs "example.com") []
        [(gs "Host", gs "example.com"), (gs "X-Amz-Date", gs "20240101T000000Z")])) :=
  c5_header_name_agreement _ (by decide) (by decide) (by decide)

theorem headerSet_mem_of_mem (hs : Headers) (k2 v2 : GoStr) (p : GoStr × GoStr)
    (hp : p ∈ hs) (hne : p.1 ≠ canonicalMIMEHeaderKey k2) :
    p ∈ headerSet hs k2 v2 := by
  unfold headerSet
  refine List.mem_cons_of_mem _ ?_
  rw [List.mem_filter]
  exact ⟨hp, by simpa using hne⟩

theorem headerSet_mem_self (hs : Headers) (k v : GoStr) :
    (canonicalMIMEHeaderKey k, v) ∈ headerSet hs k v :=
  List.mem_cons_self _ _

theorem signRequest_signedHeaders_eq (c : S3Client) (req : Request)
    (bucket key ph ds ts : GoStr) :
    (signRequest c req bucket key ph ds ts).signedHeaders =
      joinSep [59] (insSort leB
        ((headerSet (headerSet (headerSet req.headers (gs "Host") req.host)
          (gs "X-Amz-Date") ts) (gs "X-Amz-Content-Sha256")
          (signRequest c req bucket key ph ds ts).payloadHash).map
            (fun p => lowerStr p.1))) := rfl

/-- C9: every signed request carries the host, x-amz-date and
x-amz-content-sha256 headers (with the request's host, the time stamp, and
the payload hash as values), and both `host` and `x-amz-date` appear among
the `;`-separated components of the signed-header list used to compute the
signature. -/
theorem c9_required_headers (c : S3Client) (req : Request)
    (bucket key ph dateStamp timeStamp : GoStr) :
    headerGet (signRequest c req bucket key ph dateStamp timeStamp).headers (gs "Host") =
      req.host ∧
    headerGet (signRequest c req bucket key ph dateStamp timeStamp).headers (gs "X-Amz-Date") =
      timeStamp ∧
    headerGet (signRequest c req bucket key ph dateStamp timeStamp).headers
        (gs "X-Amz-Content-Sha256") =
      (signRequest c req bucket key ph dateStamp timeStamp).payloadHash ∧
    gs "host" ∈ splitSep 59 (signRequest c req bucket key ph dateStamp timeStamp).signedHeaders ∧
    gs "x-amz-date" ∈
      splitSep 59 (signRequest c req bucket key ph dateStamp timeStamp).signedHeaders := by
  have hne1 : canonicalMIMEHeaderKey (gs "Host") ≠
      canonicalMIMEHeaderKey (gs "Authorization") := by decide
  have hne2 : canonicalMIMEHeaderKey (gs "Host") ≠
      canonicalMIMEHeaderKey (gs "X-Amz-Content-Sha256") := by decide
  have hne3 : canonicalMIMEHeaderKey (gs "Host") ≠
      canonicalMIMEHeaderKey (gs "X-Amz-Date") := by decide
  have hne4 : canonicalMIMEHeaderKey (gs "X-Amz-Date") ≠
      canonicalMIMEHeaderKey (gs "Authorization") := by decide
  have hne5 : canonicalMIMEHeaderKey (gs "X-Amz-Date") ≠
      canonicalMIMEHeaderKey (gs "X-Amz-Content-Sha256") := by decide
  have hne6 : canonicalMIMEHeaderKey (gs "X-Amz-Content-Sha256") ≠
      canonicalMIMEHeaderKey (gs "Authorization") := by decide
  refine ⟨?_, ?_, ?_, ?_, ?_⟩
  · rw [signRequest_headers_eq, headerGet_set_ne _ _ _ _ hne1,
      headerGet_set_ne _ _ _ _ hne2, headerGet_set_ne _ _ _ _ hne3, headerGet_set_eq]
  · rw [signRequest_headers_eq, headerGet_set_ne _ _ _ _ hne4,
      headerGet_set_ne _ _ _ _ hne5, headerGet_set_eq]
  · rw [signRequest_headers_eq, headerGet_set_ne _ _ _ _ hne6, headerGet_set_eq]
  · rw [signRequest_signedHeaders_eq]
    refine mem_splitSep_joinSep ?_ (by decide)
    refine (insSort_perm leB _).mem_iff.mpr ?_
    have hlow1 : lowerStr (canonicalMIMEHeaderKey (gs "Host")) = gs "host" := by decide
    refine List.mem_map.mpr ⟨(canonicalMIMEHeaderKey (gs "Host"), req.host), ?_, hlow1⟩
    refine headerSet_mem_of_mem _ _ _ _ ?_ hne2
    refine headerSet_mem_of_mem _ _ _ _ ?_ hne3
    exact headerSet_mem_self _ _ _
  · rw [signRequest_signedHeaders_eq]
    refine mem_splitSep_joinSep ?_ (by decide)
    refine (insSort_perm leB _).mem_iff.mpr ?_
    have hlow2 : lowerStr (canonicalMIMEHeaderKey (gs "X-Amz-Date")) = gs "x-amz-date" := by decide
    refine List.mem_map.mpr ⟨(canonicalMIMEHeaderKey (gs "X-Amz-Date"), timeStamp), ?_, hlow2⟩
    refine headerSet_mem_of_mem _ _ _ _ ?_ hne5
    exact headerSet_mem_self _ _ _

theorem signRequest_payloadHash_nonempty (c : S3Client) (req : Request)
    (bucket key ph ds ts : GoStr) (h : ph ≠ []) :
    (signRequest c req bucket key ph ds ts).payloadHash = ph := by
  show (if ph = [] then emptyPayloadHash else ph) = ph
  rw [if_neg h]

theorem signRequest_payloadHash_suffix (c : S3Client) (req : Request)
    (bucket key ph ds ts : GoStr) :
    List.IsSuffix ([10] ++ (signRequest c req bucket key ph ds ts).payloadHash)
      (signRequest c req bucket key ph ds ts).canonicalRequest := by
  rw [signRequest_canonicalRequest_eq]
  refine ⟨req.method ++ [10] ++ (signRequest c req bucket key ph ds ts).canonicalURI ++
    [10] ++ (signRequest c req bucket key ph ds ts).canonicalQuery ++ [10] ++
    (signRequest c req bucket key ph ds ts).canonicalHeaders ++ [10] ++
    (signRequest c req bucket key ph ds ts).signedHeaders, ?_⟩
  simp [List.append_assoc]

/-- C7: `GetObject`'s response handling: HTTP 200 yields the body to the
caller; HTTP 404 yields the not-found error, which differs from every
generic S3 error value; any other non-2xx status yields the generic error
carrying the status code and the response body. -/
theorem c7_get_object_classification (bucket key : GoStr) (status : Nat) (body : GoStr) :
    (status = 200 → getObjectOutcome bucket key status body = Except.ok body) ∧
    (status = 404 →
      getObjectOutcome bucket key status body = Except.error (notFoundMessage bucket key)) ∧
    (¬ (200 ≤ status ∧ status < 300) → status ≠ 404 →
      getObjectOutcome bucket key status body = Except.error (s3ErrorMessage status body)) ∧
    (∀ status2 : Nat, ∀ body2 : GoStr,
      notFoundMessage bucket key ≠ s3ErrorMessage status2 body2) := by
  refine ⟨?_, ?_, ?_, ?_⟩
  · intro h
    subst h
    rfl
  · intro h
    subst h
    rfl
  · intro h1 h2
    unfold getObjectOutcome
    rw [if_neg h2, if_pos (by omega)]
  · intro s2 b2 he
    have h1 : (notFoundMessage bucket key).headD 0 = 111 := rfl
    have h2 : (s3ErrorMessage s2 b2).headD 0 = 83 := rfl
    rw [he] at h1
    exact absurd (h1.symm.trans h2) (by decide)

theorem c7_get_object_classification_witness :
    getObjectOutcome (gs "oaamonitor") (gs "oaamonitor.db") 503 (gs "oops") =
      Except.error (s3ErrorMessage 503 (gs "oops")) ∧
    getObjectOutcome (gs "oaamonitor") (gs "oaamonitor.db") 404 [] =
      Except.error (notFoundMessage (gs "oaamonitor") (gs "oaamonitor.db")) ∧
    getObjectOutcome (gs "oaamonitor") (gs "oaamonitor.db") 200 (gs "data") =
      Except.ok (gs "data") :=
  ⟨(c7_get_object_classification (gs "oaamonitor") (gs "oaamonitor.db") 503
      (gs "oops")).2.2.1 (by decide) (by decide),
   (c7_get_object_classification (gs "oaamonitor") (gs "oaamonitor.db") 404 []).2.1 rfl,
   (c7_get_object_classification (gs "oaamonitor") (gs "oaamonitor.db") 200 (gs "data")).1 rfl⟩

/-- C8: for a seekable body of exactly N bytes uploaded with size argument
N, the Content-Length is N, and the payload hash that is signed (in the
x-amz-content-sha256 header and as the canonical request's final component)
is the SHA-256 of those exact N bytes, computed after rewinding to offset 0;
the body handed to the HTTP layer is again the full N bytes from offset 0. -/
theorem c8_put_object_content (c : S3Client) (bucket key host bytes : GoStr) (p : Nat)
    (dateStamp timeStamp : GoStr) :
    (putObjectRequest c bucket key host ⟨bytes, p⟩ bytes.length dateStamp
        timeStamp).contentLength = bytes.length ∧
    (putObjectRequest c bucket key host ⟨bytes, p⟩ bytes.length dateStamp
        timeStamp).sign.payloadHash = toHexStr (sha256Sum bytes) ∧
    headerGet (putObjectRequest c bucket key host ⟨bytes, p⟩ bytes.length dateStamp
        timeStamp).sign.headers (gs "X-Amz-Content-Sha256") = toHexStr (sha256Sum bytes) ∧
    List.IsSuffix ([10] ++ toHexStr (sha256Sum bytes))
      (putObjectRequest c bucket key host ⟨bytes, p⟩ bytes.length dateStamp
        timeStamp).sign.canonicalRequest ∧
    (putObjectRequest c bucket key host ⟨bytes, p⟩ bytes.length dateStamp
        timeStamp).bodyAtSend = bytes := by
  have hne : toHexStr (sha256Sum bytes) ≠ [] := by
    intro h0
    have hl := toHexStr_length (sha256Sum bytes)
    rw [h0, sha256Sum_length] at hl
    simp at hl
  have hsign : (putObjectRequest c bucket key host ⟨bytes, p⟩ bytes.length dateStamp
      timeStamp).sign = signRequest c
        { method := gs "PUT", host := host, rawQuery := [],
          headers := headerSet [] (gs "Content-Type") (gs "application/octet-stream") }
        bucket key (toHexStr (sha256Sum bytes)) dateStamp timeStamp := rfl
  have hne6 : canonicalMIMEHeaderKey (gs "X-Amz-Content-Sha256") ≠
      canonicalMIMEHeaderKey (gs "Authorization") := by decide
  refine ⟨rfl, ?_, ?_, ?_, rfl⟩
  · rw [hsign]
    exact signRequest_payloadHash_nonempty _ _ _ _ _ _ _ hne
  · rw [hsign, signRequest_headers_eq, headerGet_set_ne _ _ _ _ hne6, headerGet_set_eq]
    exact signRequest_payloadHash_nonempty _ _ _ _ _ _ _ hne
  · rw [hsign]
    have hsuf := signRequest_payloadHash_suffix c
      { method := gs "PUT", host := host, rawQuery := [],
        headers := headerSet [] (gs "Content-Type") (gs "application/octet-stream") }
      bucket key (toHexStr (sha256Sum bytes)) dateStamp timeStamp
    rwa [signRequest_payloadHash_nonempty _ _ _ _ _ _ _ hne] at hsuf

theorem catMap_congr {α β : Type} {f g : α → List β} {l : List α}
    (h : ∀ x ∈ l, f x = g x) : catMap f l = catMap g l := by
  induction l with
  | nil => rfl
  | cons a l ih =>
    show f a ++ catMap f l = g a ++ catMap g l
    rw [h a (List.mem_cons_self _ _), ih (fun x hx => h x (List.mem_cons_of_mem _ hx))]

theorem mem_catMap {α β : Type} {f : α → List β} {l : List α} {x : β} :
    x ∈ catMap f l ↔ ∃ a ∈ l, x ∈ f a := by
  induction l with
  | nil => simp [catMap]
  | cons a l ih =>
    show x ∈ f a ++ catMap f l ↔ _
    simp [List.mem_append, ih]

theorem catMap_map {α β γ : Type} (f : α → List β) (g : β → γ) (l : List α) :
    catMap (fun a => (f a).map g) l = (catMap f l).map g := by
  induction l with
  | nil => rfl
  | cons a l ih =>
    show (f a).map g ++ catMap (fun a => (f a).map g) l = _
    rw [ih]
    simp [catMap]

theorem catMap_perm_congr {α β : Type} {f g : α → List β} {l : List α}
    (h : ∀ x ∈ l, List.Perm (f x) (g x)) : List.Perm (catMap f l) (catMap g l) := by
  induction l with
  | nil => exact List.Perm.refl _
  | cons a l ih =>
    exact (h a (List.mem_cons_self _ _)).append
      (ih (fun x hx => h x (List.mem_cons_of_mem _ hx)))

theorem catMap_perm_of_perm {α β : Type} (f : α → List β) {l1 l2 : List α}
    (h : List.Perm l1 l2) : List.Perm (catMap f l1) (catMap f l2) := by
  induction h with
  | nil => exact List.Perm.refl _
  | cons x _ ih => exact List.Perm.append_left _ ih
  | swap x y l =>
    have h1 : catMap f (y :: x :: l) = (f y ++ f x) ++ catMap f l := by
      simp [catMap, List.append_assoc]
    have h2 : catMap f (x :: y :: l) = (f x ++ f y) ++ catMap f l := by
      simp [catMap, List.append_assoc]
    rw [h1, h2]
    exact List.perm_append_comm.append_right _
  | trans _ _ ih1 ih2 => exact ih1.trans ih2

theorem pairwise_catMap {α β : Type} (R : β → β → Prop) (f : α → List β) (l : List α)
    (hin : ∀ a ∈ l, List.Pairwise R (f a))
    (hcross : List.Pairwise (fun a b => ∀ x ∈ f a, ∀ y ∈ f b, R x y) l) :
    List.Pairwise R (catMap f l) := by
  induction l with
  | nil => exact List.Pairwise.nil
  | cons a l ih =>
    rw [List.pairwise_cons] at hcross
    obtain ⟨hc, hcross2⟩ := hcross
    show List.Pairwise R (f a ++ catMap f l)
    rw [List.pairwise_append]
    refine ⟨hin a (List.mem_cons_self _ _),
      ih (fun x hx => hin x (List.mem_cons_of_mem _ hx)) hcross2, ?_⟩
    intro x hx y hy
    rcases mem_catMap.mp hy with ⟨b, hb, hyb⟩
    exact hc b hb x hx y hyb

theorem mPairs_qInsert (m : List (GoStr × List GoStr)) (k : GoStr) (v : GoStr) :
    List.Perm (mPairs (qInsert m k v)) ((k, v) :: mPairs m) := by
  induction m with
  | nil => exact List.Perm.refl _
  | cons e rest ih =>
    obtain ⟨k2, vs⟩ := e
    by_cases h : k2 = k
    · subst h
      rw [show qInsert ((k2, vs) :: rest) k2 v = (k2, vs ++ [v]) :: rest from by
        simp [qInsert]]
      show List.Perm ((vs ++ [v]).map (fun w => (k2, w)) ++ mPairs rest)
        ((k2, v) :: (vs.map (fun w => (k2, w)) ++ mPairs rest))
      rw [List.map_append, List.append_assoc]
      exact List.perm_middle
    · rw [show qInsert ((k2, vs) :: rest) k v = (k2, vs) :: qInsert rest k v from by
        simp [qInsert, h]]
      show List.Perm (vs.map (fun w => (k2, w)) ++ mPairs (qInsert rest k v))
        ((k, v) :: (vs.map (fun w => (k2, w)) ++ mPairs rest))
      exact (List.Perm.append_left _ ih).trans List.perm_middle

theorem mPairs_foldl (ps : List (GoStr × GoStr)) :
    ∀ m, List.Perm (mPairs (ps.foldl (fun mm pv => qInsert mm pv.1 pv.2) m))
      (mPairs m ++ ps) := by
  induction ps with
  | nil =>
    intro m
    rw [List.append_nil]
    exact List.Perm.refl _
  | cons p ps ih =>
    intro m
    show List.Perm (mPairs (ps.foldl _ (qInsert m p.1 p.2))) (mPairs m ++ p :: ps)
    refine (ih (qInsert m p.1 p.2)).trans ?_
    refine ((mPairs_qInsert m p.1 p.2).append_right ps).trans ?_
    exact List.perm_middle.symm

theorem mem_qInsert_keys {m : List (GoStr × List GoStr)} {k x : GoStr} {v : GoStr}
    (h : x ∈ (qInsert m k v).map Prod.fst) : x ∈ m.map Prod.fst ∨ x = k := by
  induction m with
  | nil =>
    simp [qInsert] at h
    exact Or.inr h
  | cons e rest ih =>
    obtain ⟨k2, vs⟩ := e
    by_cases hk : k2 = k
    · subst hk
      rw [show qInsert ((k2, vs) :: rest) k2 v = (k2, vs ++ [v]) :: rest from by
        simp [qInsert]] at h
      simp only [List.map_cons] at h ⊢
      exact Or.inl h
    · rw [show qInsert ((k2, vs) :: rest) k v = (k2, vs) :: qInsert rest k v from by
        simp [qInsert, hk]] at h
      simp only [List.map_cons, List.mem_cons] at h ⊢
      rcases h with rfl | h2
      · exact Or.inl (Or.inl rfl)
      · rcases ih h2 with h3 | h3
        · exact Or.inl (Or.inr h3)
        · exact Or.inr h3

theorem qInsert_keys_nodup (m : List (GoStr × List GoStr)) (k : GoStr) (v : GoStr)
    (h : (m.map Prod.fst).Nodup) : ((qInsert m k v).map Prod.fst).Nodup := by
  induction m with
  | nil => simp [qInsert]
  | cons e rest ih =>
    obtain ⟨k2, vs⟩ := e
    simp only [List.map_cons, List.nodup_cons] at h
    obtain ⟨hk2, hrest⟩ := h
    by_cases hk : k2 = k
    · subst hk
      rw [show qInsert ((k2, vs) :: rest) k2 v = (k2, vs ++ [v]) :: rest from by
        simp [qInsert]]
      simp only [List.map_cons, List.nodup_cons]
      exact ⟨hk2, hrest⟩
    · rw [show qInsert ((k2, vs) :: rest) k v = (k2, vs) :: qInsert rest k v from by
        simp [qInsert, hk]]
      simp only [List.map_cons, List.nodup_cons]
      refine ⟨?_, ih hrest⟩
      intro hmem
      rcases mem_qInsert_keys hmem with h3 | h3
      · exact hk2 h3
      · exact hk h3

theorem foldl_qInsert_keys_nodup (ps : List (GoStr × GoStr)) :
    ∀ m, (m.map Prod.fst).Nodup →
      ((ps.foldl (fun mm pv => qInsert mm pv.1 pv.2) m).map Prod.fst).Nodup := by
  induction ps with
  | nil => exact fun m h => h
  | cons p ps ih => exact fun m h => ih _ (qInsert_keys_nodup _ _ _ h)

theorem lookupVals_cons_self (k : GoStr) (vs : List GoStr)
    (rest : List (GoStr × List GoStr)) :
    lookupVals ((k, vs) :: rest) k = vs := by
  simp [lookupVals, List.find?_cons]

theorem lookupVals_cons_ne {k2 k : GoStr} (vs : List GoStr)
    (rest : List (GoStr × List GoStr)) (h : k2 ≠ k) :
    lookupVals ((k2, vs) :: rest) k = lookupVals rest k := by
  have hb : (k2 == k) = false := by simpa using h
  simp [lookupVals, List.find?_cons, hb]

theorem catMap_keys_entries (m : List (GoStr × List GoStr))
    (h : (m.map Prod.fst).Nodup) :
    catMap (fun k => (insSort leB (lookupVals m k)).map (fun v => (k, v))) (m.map Prod.fst)
      = catMap (fun e => (insSort leB e.2).map (fun v => (e.1, v))) m := by
  induction m with
  | nil => rfl
  | cons e rest ih =>
    obtain ⟨k, vs⟩ := e
    simp only [List.map_cons, List.nodup_cons] at h
    obtain ⟨hk, hrest⟩ := h
    show (insSort leB (lookupVals ((k, vs) :: rest) k)).map (fun v => (k, v)) ++
        catMap (fun k2 => (insSort leB (lookupVals ((k, vs) :: rest) k2)).map
          (fun v => (k2, v))) (rest.map Prod.fst)
      = (insSort leB vs).map (fun v => (k, v)) ++
        catMap (fun e => (insSort leB e.2).map (fun v => (e.1, v))) rest
    rw [lookupVals_cons_self]
    congr 1
    rw [catMap_congr (fun k2 hk2 => by
      rw [lookupVals_cons_ne _ _ (fun he => hk (by rw [he]; exact hk2))])]
    exact ih hrest

theorem lePairB_total (p q : GoStr × GoStr) : lePairB p q = true ∨ lePairB q p = true := by
  unfold lePairB
  by_cases h : p.1 = q.1
  · rw [if_pos h, if_pos h.symm]
    exact leB_total _ _
  · rw [if_neg h, if_neg (fun he => h he.symm)]
    exact leB_total _ _

theorem lePairB_trans (p q r : GoStr × GoStr) (h1 : lePairB p q = true)
    (h2 : lePairB q r = true) : lePairB p r = true := by
  unfold lePairB at h1 h2 ⊢
  by_cases hpq : p.1 = q.1 <;> by_cases hqr : q.1 = r.1
  · rw [if_pos hpq] at h1
    rw [if_pos hqr] at h2
    rw [if_pos (hpq.trans hqr)]
    exact leB_trans _ _ _ h1 h2
  · rw [if_pos hpq] at h1
    rw [if_neg hqr] at h2
    rw [if_neg (fun he => hqr (hpq.symm.trans he)), hpq]
    exact h2
  · rw [if_neg hpq] at h1
    rw [if_pos hqr] at h2
    rw [if_neg (fun he => hpq (he.trans hqr.symm)), ← hqr]
    exact h1
  · rw [if_neg hpq] at h1
    rw [if_neg hqr] at h2
    by_cases hpr : p.1 = r.1
    · exfalso
      apply hpq
      have h2b : leB q.1 p.1 = true := by
        rw [hpr]
        exact h2
      exact leB_antisymm _ _ h1 h2b
    · rw [if_neg hpr]
      exact leB_trans _ _ _ h1 h2

theorem lePairB_antisymm (p q : GoStr × GoStr) (h1 : lePairB p q = true)
    (h2 : lePairB q p = true) : p = q := by
  unfold lePairB at h1 h2
  by_cases h : p.1 = q.1
  · rw [if_pos h] at h1
    rw [if_pos h.symm] at h2
    have h3 := leB_antisymm _ _ h1 h2
    obtain ⟨p1, p2⟩ := p
    obtain ⟨q1, q2⟩ := q
    simp only at h h3
    rw [h, h3]
  · rw [if_neg h] at h1
    rw [if_neg (fun he => h he.symm)] at h2
    exact absurd (leB_antisymm _ _ h1 h2) h

theorem pairwise_grouped (ks : List GoStr) (vals : GoStr → List GoStr)
    (hks : List.Pairwise (fun a b => leB a b = true ∧ a ≠ b) ks) :
    List.Pairwise (fun p q => lePairB p q = true)
      (catMap (fun k => (insSort leB (vals k)).map (fun v => (k, v))) ks) := by
  refine pairwise_catMap _ _ _ ?_ ?_
  · intro a ha
    rw [List.pairwise_map]
    refine (insSort_pairwise leB leB_total leB_trans (vals a)).imp ?_
    intro v w hvw
    simp [lePairB, hvw]
  · refine hks.imp ?_
    intro a b hab x hx y hy
    rcases List.mem_map.mp hx with ⟨v, _, rfl⟩
    rcases List.mem_map.mp hy with ⟨w, _, rfl⟩
    simp [lePairB, hab.2, hab.1]

theorem parsePairsLoop_append (segs : List GoStr) :
    ∀ acc, parsePairsLoop acc segs =
      (parsePairsLoop [] segs).map (fun ps => acc ++ ps) := by
  induction segs with
  | nil =>
    intro acc
    simp [parsePairsLoop]
  | cons seg rest ih =>
    intro acc
    by_cases h59 : (59 : Nat) ∈ seg
    · simp [parsePairsLoop, h59]
    · have h59b : List.contains seg 59 = false := by simpa using h59
      by_cases hemp : seg = []
      · simp [parsePairsLoop, h59, h59b, hemp, ih acc]
      · cases hk : unescapeQuery (cutByte 61 seg).1 with
        | none => simp [parsePairsLoop, h59, h59b, hemp, hk]
        | some k =>
          cases hv : unescapeQuery (cutByte 61 seg).2 with
          | none => simp [parsePairsLoop, h59, h59b, hemp, hk, hv]
          | some v =>
            simp only [parsePairsLoop, if_neg h59, if_neg hemp, hk, hv, h59b,
              Bool.false_eq_true, if_false]
            rw [ih (acc ++ [(k, v)]), ih ([] ++ [(k, v)])]
            cases parsePairsLoop [] rest <;> simp [List.append_assoc, h59]

theorem parseQueryLoop_foldl (segs : List GoStr) :
    ∀ m, parseQueryLoop m segs = (parsePairsLoop [] segs).map
      (fun ps => ps.foldl (fun mm pv => qInsert mm pv.1 pv.2) m) := by
  induction segs with
  | nil =>
    intro m
    simp [parseQueryLoop, parsePairsLoop]
  | cons seg rest ih =>
    intro m
    by_cases h59 : (59 : Nat) ∈ seg
    · simp [parseQueryLoop, parsePairsLoop, h59]
    · have h59b : List.contains seg 59 = false := by simpa using h59
      by_cases hemp : seg = []
      · simp [parseQueryLoop, parsePairsLoop, h59, h59b, hemp, ih m]
      · cases hk : unescapeQuery (cutByte 61 seg).1 with
        | none => simp [parseQueryLoop, parsePairsLoop, h59, h59b, hemp, hk]
        | some k =>
          cases hv : unescapeQuery (cutByte 61 seg).2 with
          | none => simp [parseQueryLoop, parsePairsLoop, h59, h59b, hemp, hk, hv]
          | some v =>
            simp only [parseQueryLoop, parsePairsLoop, if_neg h59, if_neg hemp,
              hk, hv, h59b, Bool.false_eq_true, if_false]
            rw [ih (qInsert m k v), parsePairsLoop_append rest ([] ++ [(k, v)])]
            cases parsePairsLoop [] rest <;> simp [h59]

/-- C4: query canonicalization parses the raw query into (key, value)
pairs, percent-encodes each side, sorts the pairs primarily by key and then
by value (both ascending, byte-wise over the parsed pairs), and joins them
with `&` — i.e. the map-grouped implementation coincides with the flat
sorted-pair pipeline of the specification; the empty query gives the empty
string, and the known vector holds. -/
theorem c4_query_canonicalization (raw : GoStr) :
    canonicalQueryString raw = canonicalQuerySpec raw ∧
    canonicalQueryString [] = [] ∧
    canonicalQueryString (gs "z=last&b=hi%20there&a=1&b=second&empty=") =
      gs "a=1&b=hi%20there&b=second&empty=&z=last" := by
  refine ⟨?_, rfl, by decide⟩
  by_cases hraw : raw = []
  · subst hraw
    rfl
  · unfold canonicalQueryString canonicalQuerySpec
    rw [if_neg hraw, if_neg hraw]
    unfold parseQueryGo parsePairs
    rw [parseQueryLoop_foldl]
    cases hp : parsePairsLoop [] (splitSep 38 raw) with
    | none => rfl
    | some ps =>
      simp only [Option.map_some']
      have hnodup : ((ps.foldl (fun mm pv => qInsert mm pv.1 pv.2) []).map Prod.fst).Nodup :=
        foldl_qInsert_keys_nodup ps [] (by simp)
      congr 1
      rw [show (fun key => (insSort leB (lookupVals
          (ps.foldl (fun mm pv => qInsert mm pv.1 pv.2) []) key)).map
            (fun v => encodeRFC3986 key ++ [61] ++ encodeRFC3986 v)) =
          (fun key => ((insSort leB (lookupVals
            (ps.foldl (fun mm pv => qInsert mm pv.1 pv.2) []) key)).map
              (fun v => (key, v))).map
                (fun p => encodeRFC3986 p.1 ++ [61] ++ encodeRFC3986 p.2)) from by
        funext key
        rw [List.map_map]
        rfl]
      rw [catMap_map]
      congr 1
      have hperm : List.Perm
          (catMap (fun key => (insSort leB (lookupVals
            (ps.foldl (fun mm pv => qInsert mm pv.1 pv.2) []) key)).map (fun v => (key, v)))
            (insSort leB ((ps.foldl (fun mm pv => qInsert mm pv.1 pv.2) []).map Prod.fst)))
          (insSort lePairB ps) := by
        have p1 := catMap_perm_of_perm
          (fun key => (insSort leB (lookupVals
            (ps.foldl (fun mm pv => qInsert mm pv.1 pv.2) []) key)).map (fun v => (key, v)))
          (insSort_perm leB
            ((ps.foldl (fun mm pv => qInsert mm pv.1 pv.2) []).map Prod.fst))
        have p2 := catMap_keys_entries
          (ps.foldl (fun mm pv => qInsert mm pv.1 pv.2) []) hnodup
        have p3 : List.Perm
            (catMap (fun e => (insSort leB e.2).map (fun v => (e.1, v)))
              (ps.foldl (fun mm pv => qInsert mm pv.1 pv.2) []))
            (mPairs (ps.foldl (fun mm pv => qInsert mm pv.1 pv.2) [])) :=
          catMap_perm_congr (fun e _ => (insSort_perm leB e.2).map _)
        have p4 : List.Perm (mPairs (ps.foldl (fun mm pv => qInsert mm pv.1 pv.2) [])) ps := by
          simpa using mPairs_foldl ps []
        have p5 := insSort_perm lePairB ps
        exact ((p1.trans (p2 ▸ p3)).trans p4).trans p5.symm
      have hs1 : List.Pairwise (fun p q => lePairB p q = true)
          (catMap (fun key => (insSort leB (lookupVals
            (ps.foldl (fun mm pv => qInsert mm pv.1 pv.2) []) key)).map (fun v => (key, v)))
            (insSort leB ((ps.foldl (fun mm pv => qInsert mm pv.1 pv.2) []).map Prod.fst))) := by
        refine pairwise_grouped _ _ ?_
        exact (insSort_pairwise leB leB_total leB_trans _).and
          (((insSort_perm leB _).symm.nodup) hnodup)
      have hs2 : List.Pairwise (fun p q => lePairB p q = true) (insSort lePairB ps) :=
        insSort_pairwise lePairB lePairB_total lePairB_trans ps
      exact @List.eq_of_perm_of_sorted (GoStr × GoStr)
        (fun p q => lePairB p q = true) ⟨fun a b => lePairB_antisymm a b⟩ _ _ hperm hs1 hs2
